import Mathlib

/-!
Verification of the core of the `streams` library: the bounded ordered
parallel mapper (`streams/executors/mixins.py`, `PoolOfPoolsMixin`) and the
elastic pool-of-pools allocator (`streams/poolofpools.py`, `ExecutorPool`
and `PoolOfPools`).

The Python code is shallowly embedded: submitted futures become values of
an `Except` type tagged with their submission index, the mapper generator
becomes a recursive function threading its FIFO queue, and the allocator's
`defaultdict(list)` bookkeeping becomes an association list from spare
capacity to worker ids.  Python-level runtime errors (`AssertionError`,
`IndexError`, ...) are modelled with an explicit error type.
-/

namespace Streams

/-- A job handle ("future") as produced by `Executor.submit`: its submission
index (position of the input element in the mapped sequence, used to record
which handles get `cancel()` called on them) and the outcome of the task
unit, `Except.ok` for a returned value and `Except.error` for a raised
exception. -/
structure Fut (ε β : Type) where
  idx : Nat
  result : Except ε β
deriving Repr

/-- `PoolOfPoolsMixin.get_first` (mixins.py lines 44-69) applied to a queue
whose `popleft()` yields `first` and leaves `rest` (`map` never calls it on
an empty queue).  Returns the outcome passed to the consumer together with
the list of submission indices on which `cancel()` is called, in call
order: on success only the popped future is cancelled (the `finally`
clause); on an exception every future remaining in the queue is cancelled
in queue order, the error is re-raised, and the `finally` clause then
cancels the popped future as well. -/
def getFirst (first : Fut ε β) (rest : List (Fut ε β)) :
    Except ε β × List Nat :=
  match first.result with
  | Except.ok v => (Except.ok v, [first.idx])
  | Except.error e =>
      (Except.error e, rest.map (fun fut => fut.idx) ++ [first.idx])

/-- The final `while queue: yield self.get_first(queue)` drain loop of
`PoolOfPoolsMixin.map` (mixins.py lines 125-126).  Returns the yielded
values, the indices cancelled (in call order) and the first raised error,
if any. -/
def drainQ : List (Fut ε β) → List β × List Nat × Option ε
  | [] => ([], [], none)
  | first :: rest =>
      match getFirst first rest with
      | (Except.ok v, cs) =>
          let r := drainQ rest
          (v :: r.1, cs ++ r.2.1, r.2.2)
      | (Except.error e, cs) => ([], cs, some e)

/-- The main `for args in args_iterator: yield self.get_first(queue);
queue.append(self.submit(fn, *args))` loop of `PoolOfPoolsMixin.map`
(mixins.py lines 122-126), followed by the drain loop.  `i` is the
submission index of the next input element.  The `(_ :: _, [])` case
cannot be reached from `mapRun` since the clamped worker count is at least
1, so the queue is non-empty whenever inputs remain. -/
def mapLoop (f : α → Except ε β) :
    List α → List (Fut ε β) → Nat → List β × List Nat × Option ε
  | [], queue, _ => drainQ queue
  | _ :: _, [], _ => ([], [], none)
  | a :: args, first :: rest, i =>
      match getFirst first rest with
      | (Except.ok v, cs) =>
          let r := mapLoop f args (rest ++ [⟨i, f a⟩]) (i + 1)
          (v :: r.1, cs ++ r.2.1, r.2.2)
      | (Except.error e, cs) => ([], cs, some e)

/-- Result of one full (fully consumed) run of `PoolOfPoolsMixin.map`:
the values yielded in order, the submission indices on which `cancel()`
was called, the error propagated to the consumer (if any), and the
argument passed to the completion callback — `some worker_count` when the
line `callback(self, worker_count)` is reached, `none` when a raised error
terminates the generator before that line. -/
structure MapRunResult (ε β : Type) where
  yielded : List β
  cancelled : List Nat
  error : Option ε
  callback : Option Nat
deriving Repr

/-- `PoolOfPoolsMixin.map` (mixins.py lines 92-128): the worker count is
clamped by `worker_count = max(worker_count, 1)`, the queue is primed with
the first `worker_count` submissions (`islice`), then the main loop and
the drain loop run; `callback(self, worker_count)` is executed only if no
task error escaped. -/
def mapRun (f : α → Except ε β) (s : List α) (required_workers : Nat) :
    MapRunResult ε β :=
  let wc := max required_workers 1
  let primed : List (Fut ε β) :=
    (s.take wc).enum.map (fun p => ⟨p.1, f p.2⟩)
  let r := mapLoop f (s.drop wc) primed (s.take wc).length
  { yielded := r.1
    cancelled := r.2.1
    error := r.2.2
    callback := if r.2.2.isNone then some wc else none }

/-- Extract the value of an error-free outcome. -/
def extractOk : Except Empty β → β
  | Except.ok v => v

lemma getFirst_of_empty (first : Fut Empty β) (rest : List (Fut Empty β)) :
    getFirst first rest = (Except.ok (extractOk first.result), [first.idx]) := by
  rcases first with ⟨i, r⟩
  cases r with
  | ok v => rfl
  | error e => exact e.elim

lemma drainQ_empty (q : List (Fut Empty β)) :
    drainQ q = (q.map (fun fut => extractOk fut.result),
                q.map (fun fut => fut.idx), none) := by
  induction q with
  | nil => rfl
  | cons first rest ih =>
      simp only [drainQ, getFirst_of_empty, ih]
      rfl

lemma mapLoop_empty (f : α → Except Empty β) :
    ∀ (args : List α) (q : List (Fut Empty β)) (i : Nat),
      args = [] ∨ q ≠ [] →
      (mapLoop f args q i).1 =
        q.map (fun fut => extractOk fut.result) ++
          args.map (fun a => extractOk (f a)) := by
  intro args
  induction args with
  | nil =>
      intro q i _
      simp [mapLoop, drainQ_empty]
  | cons a args ih =>
      intro q i h
      match q with
      | [] =>
          rcases h with h | h
          · exact absurd h (by simp)
          · exact absurd rfl h
      | first :: rest =>
          simp only [mapLoop, getFirst_of_empty]
          have := ih (rest ++ [⟨i, f a⟩]) (i + 1) (Or.inr (by simp))
          simp only [this]
          simp

/-- C1 — For every function `f`, every finite input sequence `s` and every
worker count `W ≥ 1`, collecting the lazy output of
`PoolOfPoolsMixin.map` with `required_workers = W` yields exactly
`[f(x) for x in s]` in input order. -/
theorem map_preserves_input_order (f : α → β) (s : List α) (W : Nat)
    (h : 1 ≤ W) :
    (mapRun (fun a => (Except.ok (f a) : Except Empty β)) s W).yielded
      = s.map f := by
  unfold mapRun
  have hmain := mapLoop_empty (fun a => (Except.ok (f a) : Except Empty β))
    (s.drop (max W 1))
    ((s.take (max W 1)).enum.map
       (fun p => ⟨p.1, Except.ok (f p.2)⟩))
    (s.take (max W 1)).length
    (by
      by_cases hd : s.drop (max W 1) = []
      · exact Or.inl hd
      · refine Or.inr ?_
        have hlen : 0 < (s.drop (max W 1)).length := by
          cases hq : s.drop (max W 1) with
          | nil => exact absurd hq hd
          | cons x xs => simp [hq]
        have hW : 0 < max W 1 := lt_of_lt_of_le Nat.one_pos (le_max_right W 1)
        have hs : 0 < s.length := by
          have := List.length_drop (max W 1) s
          omega
        have htake : 0 < (s.take (max W 1)).length := by
          rw [List.length_take]
          omega
        intro hcon
        have hlc := congrArg List.length hcon
        simp only [List.length_map, List.enum_length, List.length_nil] at hlc
        omega)
  simp only [hmain]
  have henum : ∀ (l : List α),
      (l.enum.map (fun p : Nat × α => (⟨p.1, Except.ok (f p.2)⟩ : Fut Empty β))).map
          (fun fut => extractOk fut.result)
        = l.map f := by
    intro l
    rw [List.map_map]
    have : ((fun fut : Fut Empty β => extractOk fut.result) ∘
        (fun p : Nat × α => (⟨p.1, Except.ok (f p.2)⟩ : Fut Empty β)))
        = (fun p : Nat × α => f p.2) := by
      funext p
      rfl
    rw [this]
    have h2 : (fun p : Nat × α => f p.2) = f ∘ Prod.snd := rfl
    rw [h2, ← List.map_map, List.enum_map_snd]
  rw [henum]
  have : (fun a => extractOk ((fun a => (Except.ok (f a) : Except Empty β)) a))
      = f := rfl
  rw [this]
  rw [← List.map_append, List.take_append_drop]

/-- Witness for C1 at `f = (· + 1)`, `s = [1, 2, 3]`, `W = 2`. -/
theorem map_preserves_input_order_witness :
    1 ≤ 2 ∧
      (mapRun (fun n => (Except.ok (n + 1) : Except Empty Nat)) [1, 2, 3] 2).yielded
        = [1, 2, 3].map (fun n => n + 1) :=
  ⟨by decide, map_preserves_input_order (fun n => n + 1) [1, 2, 3] 2 (by decide)⟩

/-- Instrumentation of the drain loop of `PoolOfPoolsMixin.map`: the
largest queue length observed at the entry of each `get_first` call during
the final `while queue:` drain.  The recursion mirrors `drainQ` exactly. -/
def drainMaxQ : List (Fut ε β) → Nat
  | [] => 0
  | first :: rest =>
      max (rest.length + 1)
        (match getFirst first rest with
         | (Except.ok _, _) => drainMaxQ rest
         | (Except.error _, _) => 0)

/-- Instrumentation of the main loop of `PoolOfPoolsMixin.map`: the
largest queue length observed at the entry of each `get_first` call.  The
recursion mirrors `mapLoop` exactly (pop the head, push the newly
submitted future at the tail). -/
def mapLoopMaxQ (f : α → Except ε β) :
    List α → List (Fut ε β) → Nat → Nat
  | [], queue, _ => drainMaxQ queue
  | _ :: _, [], _ => 0
  | a :: args, first :: rest, i =>
      max (rest.length + 1)
        (match getFirst first rest with
         | (Except.ok _, _) => mapLoopMaxQ f args (rest ++ [⟨i, f a⟩]) (i + 1)
         | (Except.error _, _) => 0)

/-- The largest number of in-flight job handles held by the queue of a
`PoolOfPoolsMixin.map` run (the queue is primed with the first
`worker_count` submissions and the loops then pop before every push). -/
def mapRunMaxQ (f : α → Except ε β) (s : List α) (required_workers : Nat) :
    Nat :=
  let wc := max required_workers 1
  max (s.take wc).length
    (mapLoopMaxQ f (s.drop wc)
      ((s.take wc).enum.map (fun p => ⟨p.1, f p.2⟩))
      (s.take wc).length)

lemma drainMaxQ_le (q : List (Fut ε β)) : drainMaxQ q ≤ q.length := by
  induction q with
  | nil => simp [drainMaxQ]
  | cons first rest ih =>
      simp only [drainMaxQ, List.length_cons]
      apply max_le (le_refl _)
      split
      · exact le_trans ih (Nat.le_succ _)
      · exact Nat.zero_le _

lemma mapLoopMaxQ_le (f : α → Except ε β) :
    ∀ (args : List α) (q : List (Fut ε β)) (i : Nat),
      mapLoopMaxQ f args q i ≤ q.length := by
  intro args
  induction args with
  | nil =>
      intro q i
      exact drainMaxQ_le q
  | cons a args ih =>
      intro q i
      match q with
      | [] => simp [mapLoopMaxQ]
      | first :: rest =>
          simp only [mapLoopMaxQ, List.length_cons]
          apply max_le (le_refl _)
          split
          · have := ih (rest ++ [⟨i, f a⟩]) (i + 1)
            simpa using this
          · exact Nat.zero_le _

/-- C5 — At every step of a `PoolOfPoolsMixin.map` run with
`required_workers = W ≥ 1` the internal queue of in-flight job handles
holds at most `W` entries: at most `W` task units are outstanding at any
instant. -/
theorem map_queue_bounded_by_workers (f : α → Except ε β) (s : List α)
    (W : Nat) (h : 1 ≤ W) : mapRunMaxQ f s W ≤ W := by
  unfold mapRunMaxQ
  have hwc : max W 1 = W := Nat.max_eq_left h
  have htake : (s.take (max W 1)).length ≤ W := by
    rw [List.length_take, hwc]
    exact min_le_left _ _
  apply max_le htake
  calc mapLoopMaxQ f (s.drop (max W 1))
        ((s.take (max W 1)).enum.map (fun p => ⟨p.1, f p.2⟩))
        (s.take (max W 1)).length
      ≤ ((s.take (max W 1)).enum.map
          (fun p : Nat × α => (⟨p.1, f p.2⟩ : Fut ε β))).length :=
        mapLoopMaxQ_le f _ _ _
    _ ≤ W := by
        rw [List.length_map, List.enum_length]
        exact htake

/-- Witness for C5 at a run with one failing task, `s = [1, 2, 3, 4]`,
`W = 2`. -/
theorem map_queue_bounded_by_workers_witness :
    1 ≤ 2 ∧
      mapRunMaxQ
        (fun n => if n = 3 then Except.error "boom" else Except.ok n)
        [1, 2, 3, 4] 2 ≤ 2 :=
  ⟨by decide,
   map_queue_bounded_by_workers
     (fun n => if n = 3 then Except.error "boom" else Except.ok n)
     [1, 2, 3, 4] 2 (by decide)⟩

/-- C3 — Whenever `PoolOfPoolsMixin.get_first` pops the oldest in-flight
job handle and blocking on its result raises an error `e`, it calls
`cancel()` on every other handle still in the queue (in queue order),
re-raises `e` to the consumer, and finally also calls `cancel()` on the
failed handle itself. -/
theorem get_first_error_cancels_and_reraises (first : Fut ε β)
    (rest : List (Fut ε β)) (e : ε) (h : first.result = Except.error e) :
    getFirst first rest
      = (Except.error e, rest.map (fun fut => fut.idx) ++ [first.idx]) := by
  unfold getFirst
  rw [h]

/-- Witness for C3: a failed head handle with two pending handles behind
it; both are cancelled in order and the failed handle last. -/
theorem get_first_error_cancels_and_reraises_witness :
    getFirst (⟨0, Except.error "boom"⟩ : Fut String Nat)
        [⟨1, Except.ok 5⟩, ⟨2, Except.ok 6⟩]
      = (Except.error "boom", [1, 2, 0]) :=
  get_first_error_cancels_and_reraises
    (⟨0, Except.error "boom"⟩ : Fut String Nat)
    [⟨1, Except.ok 5⟩, ⟨2, Except.ok 6⟩] "boom" rfl

lemma drainQ_none_iff (q : List (Fut ε β)) :
    (drainQ q).2.2 = none ↔ ∀ fut ∈ q, ∃ v, fut.result = Except.ok v := by
  induction q with
  | nil => simp [drainQ]
  | cons first rest ih =>
      rcases hres : first.result with e | v
      · simp only [drainQ, getFirst, hres]
        constructor
        · intro hn
          exact absurd hn (by simp)
        · intro hall
          rcases hall first (by simp) with ⟨v, hv⟩
          rw [hres] at hv
          exact absurd hv (by simp)
      · simp only [drainQ, getFirst, hres]
        rw [show ∀ r : List β × List Nat × Option ε,
              ((v :: r.1, [first.idx] ++ r.2.1, r.2.2) :
                List β × List Nat × Option ε).2.2 = r.2.2 from fun r => rfl]
        rw [ih]
        constructor
        · intro hall
          intro fut hf
          rcases List.mem_cons.mp hf with rfl | hf
          · exact ⟨v, hres⟩
          · exact hall fut hf
        · intro hall fut hf
          exact hall fut (List.mem_cons_of_mem _ hf)

lemma mapLoop_none_iff (f : α → Except ε β) :
    ∀ (args : List α) (q : List (Fut ε β)) (i : Nat),
      args = [] ∨ q ≠ [] →
      ((mapLoop f args q i).2.2 = none ↔
        ((∀ fut ∈ q, ∃ v, fut.result = Except.ok v) ∧
         (∀ a ∈ args, ∃ v, f a = Except.ok v))) := by
  intro args
  induction args with
  | nil =>
      intro q i _
      simp [mapLoop, drainQ_none_iff]
  | cons a args ih =>
      intro q i h
      match q with
      | [] =>
          rcases h with h | h
          · exact absurd h (by simp)
          · exact absurd rfl h
      | first :: rest =>
          rcases hres : first.result with e | v
          · simp only [mapLoop, getFirst, hres]
            constructor
            · intro hn
              exact absurd hn (by simp)
            · intro hall
              rcases hall.1 first (by simp) with ⟨v, hv⟩
              rw [hres] at hv
              exact absurd hv (by simp)
          · have hrec := ih (rest ++ [⟨i, f a⟩]) (i + 1) (Or.inr (by simp))
            simp only [mapLoop, getFirst, hres]
            rw [show ∀ r : List β × List Nat × Option ε,
                  ((v :: r.1, [first.idx] ++ r.2.1, r.2.2) :
                    List β × List Nat × Option ε).2.2 = r.2.2 from fun r => rfl]
            rw [hrec]
            constructor
            · intro ⟨hq, ha⟩
              refine ⟨?_, ?_⟩
              · intro fut hf
                rcases List.mem_cons.mp hf with rfl | hf
                · exact ⟨v, hres⟩
                · exact hq fut (List.mem_append_left _ hf)
              · intro x hx
                rcases List.mem_cons.mp hx with rfl | hx
                · exact hq ⟨i, f x⟩ (List.mem_append_right _ (by simp))
                · exact ha x hx
            · intro ⟨hq, ha⟩
              refine ⟨?_, ?_⟩
              · intro fut hf
                rcases List.mem_append.mp hf with hf | hf
                · exact hq fut (List.mem_cons_of_mem _ hf)
                · have : fut = (⟨i, f a⟩ : Fut ε β) := by simpa using hf
                  subst this
                  exact ha a (by simp)
              · intro x hx
                exact ha x (List.mem_cons_of_mem _ hx)

/-- The function used in the C4 counterexample: the task unit raises on
input `0` and succeeds otherwise. -/
def c4f : Nat → Except Nat Nat :=
  fun n => if n = 0 then Except.error 99 else Except.ok n

/-- Counterexample to C4 as stated: a one-element map run whose single
task unit raises terminates with that error, yet the completion callback
is never invoked (the exception escapes the generator before the
`callback(self, worker_count)` line), so the worker pool is not returned
to the idle index by that run. -/
theorem map_task_error_skips_callback_cex :
    (mapRun c4f [0] 1).error = some 99 ∧ (mapRun c4f [0] 1).callback = none := by
  constructor <;> rfl

/-- C4 amended — The completion callback of a fully consumed
`PoolOfPoolsMixin.map` run is invoked (with the clamped worker count) if
and only if every task unit of the run succeeds; in particular, when some
task unit raises, the callback is NOT invoked and the worker pool is not
returned to the idle index by that run. -/
theorem map_callback_iff_all_tasks_ok (f : α → Except ε β) (s : List α)
    (W : Nat) :
    (mapRun f s W).callback = some (max W 1) ↔
      ∀ x ∈ s, ∃ v, f x = Except.ok v := by
  unfold mapRun
  have hinv : s.drop (max W 1) = [] ∨
      ((s.take (max W 1)).enum.map
        (fun p => (⟨p.1, f p.2⟩ : Fut ε β))) ≠ [] := by
    by_cases hd : s.drop (max W 1) = []
    · exact Or.inl hd
    · refine Or.inr ?_
      have hlen : 0 < (s.drop (max W 1)).length := by
        cases hq : s.drop (max W 1) with
        | nil => exact absurd hq hd
        | cons x xs => simp [hq]
      have hW : 0 < max W 1 := lt_of_lt_of_le Nat.one_pos (le_max_right W 1)
      have hs : 0 < s.length := by
        have := List.length_drop (max W 1) s
        omega
      have htake : 0 < (s.take (max W 1)).length := by
        rw [List.length_take]
        omega
      intro hcon
      have hlc := congrArg List.length hcon
      simp only [List.length_map, List.enum_length, List.length_nil] at hlc
      omega
  have hiff := mapLoop_none_iff f (s.drop (max W 1))
    ((s.take (max W 1)).enum.map (fun p => (⟨p.1, f p.2⟩ : Fut ε β)))
    (s.take (max W 1)).length hinv
  have hcb : ∀ o : Option ε, ∀ wc : Nat,
      ((if o.isNone then some wc else none : Option Nat) = some wc ↔ o = none) := by
    intro o wc
    cases o <;> simp
  rw [hcb]
  rw [hiff]
  have hqmem : (∀ fut ∈ (s.take (max W 1)).enum.map
        (fun p => (⟨p.1, f p.2⟩ : Fut ε β)), ∃ v, fut.result = Except.ok v) ↔
      ∀ x ∈ s.take (max W 1), ∃ v, f x = Except.ok v := by
    constructor
    · intro hall x hx
      have hx2 : x ∈ (s.take (max W 1)).enum.map Prod.snd := by
        rw [List.enum_map_snd]
        exact hx
      rcases List.mem_map.mp hx2 with ⟨p, hp, hpx⟩
      have := hall ⟨p.1, f p.2⟩ (List.mem_map.mpr ⟨p, hp, rfl⟩)
      rw [hpx] at this
      exact this
    · intro hall fut hf
      rcases List.mem_map.mp hf with ⟨p, hp, hpf⟩
      subst hpf
      apply hall
      have : p.2 ∈ (s.take (max W 1)).enum.map Prod.snd :=
        List.mem_map.mpr ⟨p, hp, rfl⟩
      rwa [List.enum_map_snd] at this
  rw [hqmem]
  constructor
  · intro ⟨h1, h2⟩ x hx
    rcases List.mem_append.mp (by rw [List.take_append_drop (max W 1) s]; exact hx :
        x ∈ s.take (max W 1) ++ s.drop (max W 1)) with hx | hx
    · exact h1 x hx
    · exact h2 x hx
  · intro hall
    constructor
    · intro x hx
      exact hall x (by
        have := List.mem_append_left (s.drop (max W 1)) hx
        rwa [List.take_append_drop (max W 1) s] at this)
    · intro x hx
      exact hall x (by
        have := List.mem_append_right (s.take (max W 1)) hx
        rwa [List.take_append_drop (max W 1) s] at this)

/-- Witness for C4's amended theorem: a run with no failing task invokes
the callback with its worker count. -/
theorem map_callback_iff_all_tasks_ok_witness :
    (mapRun (fun n => (Except.ok n : Except Nat Nat)) [5, 6] 3).callback
      = some 3 :=
  (map_callback_iff_all_tasks_ok
      (fun n => (Except.ok n : Except Nat Nat)) [5, 6] 3).mpr
    (by intro x _; exact ⟨x, rfl⟩)

/-- Python runtime errors that the `ExecutorPool` bookkeeping code can
raise, plus fuel exhaustion of the model's bounded `while` loop (never hit
on the inputs considered here). -/
inductive Err where
  | assertionError
  | indexError
  | valueError
  | fuelExhausted
deriving Repr, DecidableEq

/-- `self.workers` of `ExecutorPool`: a `defaultdict(list)` from spare
capacity ("availability") to the idle worker instances filed under it.
Workers are identified by their id (`id(worker)` in the source); keys are
kept distinct.  `workersIndex.find?` with a `Bool` predicate models dict
key lookup. -/
abbrev WorkersIndex := List (Nat × List Nat)

/-- Dict access with `defaultdict(list)` semantics: a missing key reads as
the empty list. -/
def dictGetD (d : WorkersIndex) (k : Nat) : List Nat :=
  match d.find? (fun p => p.1 == k) with
  | some p => p.2
  | none => []

/-- Dict assignment `d[k] = v`: replace the value of an existing key,
otherwise append the new binding. -/
def dictSet (d : WorkersIndex) (k : Nat) (v : List Nat) : WorkersIndex :=
  if (d.find? (fun p => p.1 == k)).isSome then
    d.map (fun p => if p.1 == k then (k, v) else p)
  else
    d ++ [(k, v)]

/-- `d[k].append(x)` on a `defaultdict(list)`. -/
def dictAppend (d : WorkersIndex) (k : Nat) (x : Nat) : WorkersIndex :=
  dictSet d k (dictGetD d k ++ [x])

/-- `d.pop(k)`: drop the binding of `k`. -/
def dictPop (d : WorkersIndex) (k : Nat) : WorkersIndex :=
  d.filter (fun p => p.1 != k)

/-- `min` of a list, `none` on the empty list (where Python raises
`ValueError`). -/
def listMin? : List Nat → Option Nat
  | [] => none
  | a :: as => some (as.foldl Nat.min a)

/-- State of one `ExecutorPool`: the spare-capacity index and a counter
supplying fresh ids for newly constructed worker instances
(`self.worker_class(required_workers)`). -/
structure PoolState where
  workers : WorkersIndex
  nextId : Nat
deriving Repr, DecidableEq

/-- `ExecutorPool.worker_finished` (poolofpools.py lines 126-132): the
completion callback files the worker back under the capacity it was
leased for. -/
def worker_finished (s : PoolState) (worker : Nat) (required_workers : Nat) :
    PoolState :=
  { s with workers := dictAppend s.workers required_workers worker }

/-- The `(worker, availability)` pairs filed in the index: one pair per
occurrence of a worker id under an availability key (the inner loops of
`ExecutorPool.real_worker_availability`). -/
def widAvails (w : WorkersIndex) : List (Nat × Nat) :=
  w.flatMap (fun p => p.2.map (fun wid => (wid, p.1)))

/-- All distinct worker ids appearing in the index (the keys of
`real_availability`). -/
def allWids (w : WorkersIndex) : List Nat :=
  ((widAvails w).map (fun p => p.1)).dedup

/-- `max(real_availability[name])`: the largest availability a given
worker id is filed under (its "true" spare capacity). -/
def realAvail (w : WorkersIndex) (wid : Nat) : Nat :=
  (((widAvails w).filter (fun p => p.1 == wid)).map (fun p => p.2)).foldl
    Nat.max 0

/-- `ExecutorPool.real_worker_availability` (poolofpools.py lines
147-167): re-buckets the ids by their true spare capacity. -/
def real_worker_availability (w : WorkersIndex) : WorkersIndex :=
  (allWids w).foldl (fun d wid => dictAppend d (realAvail w wid) wid) []

/-- Add an element to a set represented as a duplicate-free list
(`set.add`). -/
def setAdd (l : List Nat) (x : Nat) : List Nat :=
  if l.contains x then l else l ++ [x]

/-- The `while avails_to_traverse:` loop of `ExecutorPool.squash_workers`
(poolofpools.py lines 169-187), with explicit fuel (each iteration either
pops a key of `avails` or raises, so `avails.length + 1` fuel always
suffices).  `acc` is the freshly reassigned `self.workers`.  Note that in
the multi-instance branch the source expands the survivor and schedules
the merged capacity for traversal but never files the survivor under it,
so the later lookup of the merged bucket finds an empty `defaultdict`
entry and `workers[0]` raises `IndexError` (unless another instance
happens to be filed under exactly the merged capacity, in which case the
survivor is silently dropped from tracking). -/
def squashWorkersAux (fuel : Nat) (avails : WorkersIndex)
    (traverse : List Nat) (acc : WorkersIndex) : Except Err WorkersIndex :=
  match fuel with
  | 0 => Except.error Err.fuelExhausted
  | fuel + 1 =>
      match listMin? traverse with
      | none => Except.ok acc
      | some m =>
          let traverse1 := traverse.filter (fun x => x != m)
          match dictGetD avails m with
          | [] => Except.error Err.indexError
          | w0 :: ws =>
              if (w0 :: ws).length = 1 then
                squashWorkersAux fuel (dictPop avails m) traverse1
                  (dictSet acc m [w0])
              else
                squashWorkersAux fuel (dictPop avails m)
                  (setAdd traverse1 (m * (w0 :: ws).length)) acc

/-- `ExecutorPool.squash` (poolofpools.py lines 90-102): return at once on
an empty index, otherwise drop empty buckets, compute real availability
and run `squash_workers`. -/
def squash (s : PoolState) : Except Err PoolState :=
  if s.workers.isEmpty then Except.ok s
  else
    let cleaned := s.workers.filter (fun p => !p.2.isEmpty)
    let avails := real_worker_availability cleaned
    match squashWorkersAux (avails.length + 1) avails
        (avails.map (fun p => p.1)) [] with
    | Except.error e => Except.error e
    | Except.ok newWorkers => Except.ok { s with workers := newWorkers }

/-- One step of the scan in `ExecutorPool.get_suitable_worker`
(poolofpools.py lines 115-121): a bucket qualifies when its availability
is at least the requirement, and the comparison `min_available <
availability` keeps the bucket with the LARGEST availability seen so
far. -/
def gswStep (required : Nat) :
    Option (Nat × List Nat) → Nat × List Nat → Option (Nat × List Nat)
  | none, p => if required ≤ p.1 then some p else none
  | some q, p =>
      if required ≤ p.1 then
        (if q.1 < p.1 then some p else some q)
      else some q

/-- The full scan over `iteritems(self.workers)`. -/
def gswScan (required : Nat) (buckets : WorkersIndex) :
    Option (Nat × List Nat) :=
  buckets.foldl (gswStep required) none

/-- `ExecutorPool.get_suitable_worker` (poolofpools.py lines 104-124):
scan for the chosen bucket, then `suspected_workers.pop()` removes the
LAST id of that bucket's list (leaving the bucket in place, possibly
empty).  Returns `none` in place of the source's `(None, 0)` when no
bucket qualifies; popping an empty chosen bucket raises `IndexError`. -/
def get_suitable_worker (s : PoolState) (required_workers : Nat) :
    Except Err (Option (Nat × Nat) × PoolState) :=
  match gswScan required_workers s.workers with
  | none => Except.ok (none, s)
  | some (a, ws) =>
      match ws.getLast? with
      | none => Except.error Err.indexError
      | some w =>
          Except.ok (some (w, a),
            { s with workers := dictSet s.workers a ws.dropLast })

/-- The bound mapper returned by `ExecutorPool.get`: the leased worker id,
the `required_workers` bound into `partial(worker.map, ...)`, and the pool
state after the lease. -/
structure LeaseResult where
  worker : Nat
  required : Nat
  state : PoolState
deriving Repr, DecidableEq

/-- `ExecutorPool.get` (poolofpools.py lines 66-88): assert the request is
positive, squash, look for a suitable idle worker, construct a fresh one
when none fits, and immediately re-file any leftover availability of the
chosen worker. -/
def get (s : PoolState) (required_workers : Nat) : Except Err LeaseResult :=
  if required_workers = 0 then Except.error Err.assertionError
  else
    match squash s with
    | Except.error e => Except.error e
    | Except.ok s1 =>
        match get_suitable_worker s1 required_workers with
        | Except.error e => Except.error e
        | Except.ok (found, s2) =>
            let chosen : Nat × Nat × PoolState :=
              match found with
              | some (w, a) => (w, a, s2)
              | none => (s2.nextId, required_workers,
                  { s2 with nextId := s2.nextId + 1 })
            let availability := chosen.2.1 - required_workers
            let s3 := chosen.2.2
            let s4 :=
              if 0 < availability then
                { s3 with workers := dictAppend s3.workers availability chosen.1 }
              else s3
            Except.ok ⟨chosen.1, required_workers, s4⟩

/-- `ExecutorPool.get_any` (poolofpools.py lines 57-64):
`self.get(min(iterkeys(self.workers)))`; `min` of an empty dict raises
`ValueError`. -/
def get_any (s : PoolState) : Except Err LeaseResult :=
  match listMin? (s.workers.map (fun p => p.1)) with
  | none => Except.error Err.valueError
  | some m => get s m

/-- An idle index holding two distinct workers (ids 0 and 1) of equal
spare capacity 2, as produced by two `worker_finished` reclaims. -/
def c2state : PoolState := ⟨[(2, [0, 1])], 2⟩

/-- The idle index of the spec's best-fit scenario: three workers with
spare capacities 2, 3 and 7. -/
def c7state : PoolState := ⟨[(2, [0]), (3, [1]), (7, [2])], 3⟩

/-- An idle index with two workers: id 10 with the smallest spare
capacity 2 and id 20 with the largest spare capacity 7. -/
def c6state : PoolState := ⟨[(2, [10]), (7, [20])], 0⟩

/-- An idle index with a single worker (id 0) of spare capacity 7. -/
def c8state : PoolState := ⟨[(7, [0])], 1⟩

/-- C2 fails on the code — on an idle index whose single bucket holds the
two equal-capacity workers of `c2state`, `squash` raises `IndexError`
instead of establishing the claimed post-condition: `squash_workers`
expands the survivor and schedules the merged capacity `4` for traversal
but never files the survivor under it, so the traversal then reads the
empty `defaultdict` bucket `avails[4]` and `workers[0]` fails.  No bucket
is merged and the survivor is never re-filed. -/
theorem squash_equal_bucket_index_error :
    squash c2state = Except.error Err.indexError := rfl

/-- C7 — With idle spare capacities {2, 3, 7} (workers 0, 1, 2), `get 5`
leases worker 2 — the one filed under 7, the only candidate ≥ 5 and the
largest-availability bucket — re-files it under the leftover spare
capacity 2, and constructs no new worker instance (`nextId` is
unchanged). -/
theorem get_best_fit_237_scenario :
    get c7state 5
        = Except.ok ⟨2, 5, ⟨[(2, [0, 2]), (3, [1]), (7, [])], 3⟩⟩ ∧
      dictGetD c7state.workers 7 = [2] ∧
      (2 : Nat) ∈ dictGetD [(2, [0, 2]), (3, [1]), (7, [])] 2 ∧
      (⟨[(2, [0, 2]), (3, [1]), (7, [])], 3⟩ : PoolState).nextId
        = c7state.nextId :=
  ⟨rfl, rfl, by decide, rfl⟩

/-- Counterexample to C6 as stated: in `c6state` the instance offering
the smallest currently-known spare capacity is worker 10 (filed under 2),
but `get_any` leases worker 20 — the instance filed under the LARGEST
spare capacity 7 — because `get_suitable_worker`'s scan keeps the largest
qualifying bucket. -/
theorem get_any_leases_largest_spare_cex :
    get_any c6state
        = Except.ok ⟨20, 2, ⟨[(2, [10]), (7, []), (5, [20])], 0⟩⟩ ∧
      dictGetD c6state.workers 2 = [10] ∧
      (20 : Nat) ≠ 10 :=
  ⟨rfl, rfl, by decide⟩

/-- Counterexample to C8 as stated: leasing 5 of worker 0's spare
capacity 7 from `c8state` returns a mapper bound to worker 0 while worker
0 is immediately re-filed in the idle structure under the leftover key 2
— the instance IS present in the idle structure while its lease is in
flight. -/
theorem leased_worker_refiled_while_leased_cex :
    get c8state 5 = Except.ok ⟨0, 5, ⟨[(7, []), (2, [0])], 1⟩⟩ ∧
      (0 : Nat) ∈ dictGetD [(7, []), (2, [0])] 2 :=
  ⟨rfl, by decide⟩

lemma dictGetD_cons_ne (p : Nat × List Nat) (d : WorkersIndex) (k : Nat)
    (h : (p.1 == k) = false) : dictGetD (p :: d) k = dictGetD d k := by
  unfold dictGetD
  rw [List.find?_cons_of_neg _ (by simp [h])]

lemma dictGetD_dictSet (d : WorkersIndex) (k : Nat) (v : List Nat) :
    dictGetD (dictSet d k v) k = v := by
  induction d with
  | nil =>
      unfold dictSet dictGetD
      simp
  | cons p d ih =>
      by_cases hpk : (p.1 == k) = true
      · unfold dictSet
        rw [List.find?_cons_of_pos _ (by simpa using hpk)]
        simp only [Option.isSome_some, if_true]
        rw [List.map_cons, if_pos hpk]
        unfold dictGetD
        rw [List.find?_cons_of_pos _ (by simp)]
      · have hpk' : (p.1 == k) = false := by
          simp only [Bool.not_eq_true] at hpk
          exact hpk
        unfold dictSet
        rw [List.find?_cons_of_neg _ (by simpa using hpk)]
        by_cases h2 : (d.find? (fun p => p.1 == k)).isSome
        · rw [if_pos h2]
          rw [List.map_cons, if_neg hpk]
          rw [dictGetD_cons_ne p _ k hpk']
          have ihs := ih
          rw [dictSet, if_pos h2] at ihs
          exact ihs
        · rw [if_neg h2]
          rw [List.cons_append]
          rw [dictGetD_cons_ne p _ k hpk']
          have ihs := ih
          rw [dictSet, if_neg h2] at ihs
          exact ihs

lemma dictGetD_dictAppend (d : WorkersIndex) (k x : Nat) :
    dictGetD (dictAppend d k x) k = dictGetD d k ++ [x] := by
  unfold dictAppend
  exact dictGetD_dictSet d k (dictGetD d k ++ [x])

/-- C8 amended — On completion, `worker_finished` files the worker back
under the capacity it was leased for; but a leased worker does NOT leave
the idle structure for the duration of the lease: whenever the chosen
worker's availability `a` exceeds the requirement, `get` immediately
re-files the still-leased worker under the leftover key `a - required`,
so it is present in the idle structure while its map is in flight. -/
theorem lease_refile_semantics :
    (∀ (s : PoolState) (w r : Nat),
        w ∈ dictGetD (worker_finished s w r).workers r) ∧
    (∀ (s : PoolState) (req : Nat) (s1 : PoolState) (w a : Nat)
        (s2 : PoolState),
        req ≠ 0 → squash s = Except.ok s1 →
        get_suitable_worker s1 req = Except.ok (some (w, a), s2) →
        req < a →
        get s req
            = Except.ok ⟨w, req,
                { s2 with workers := dictAppend s2.workers (a - req) w }⟩ ∧
          w ∈ dictGetD
              ((get s req).toOption.elim [] (fun r2 => r2.state.workers))
              (a - req)) := by
  constructor
  · intro s w r
    unfold worker_finished
    simp only [dictGetD_dictAppend]
    simp
  · intro s req s1 w a s2 hreq hsq hgsw hlt
    have hget : get s req
        = Except.ok ⟨w, req,
            { s2 with workers := dictAppend s2.workers (a - req) w }⟩ := by
      unfold get
      rw [if_neg hreq]
      simp only [hsq, hgsw]
      simp [Nat.sub_pos_of_lt hlt]
    refine ⟨hget, ?_⟩
    rw [hget]
    simp only [Except.toOption, Option.elim]
    simp only [dictGetD_dictAppend]
    simp

/-- Witness for C8's amended theorem: leasing 3 from a worker with spare
capacity 9 leaves the worker filed under the leftover key 6 while
leased. -/
theorem lease_refile_semantics_witness :
    get (⟨[(9, [4])], 5⟩ : PoolState) 3
        = Except.ok ⟨4, 3, ⟨[(9, []), (6, [4])], 5⟩⟩ ∧
      (4 : Nat) ∈ dictGetD
          ((get (⟨[(9, [4])], 5⟩ : PoolState) 3).toOption.elim []
            (fun r2 => r2.state.workers)) 6 :=
  lease_refile_semantics.2 ⟨[(9, [4])], 5⟩ 3 ⟨[(9, [4])], 5⟩ 4 9
    ⟨[(9, [])], 5⟩ (by decide) rfl rfl (by decide)

lemma gswStep_keeps (req : Nat) (init : Option (Nat × List Nat))
    (b : Nat × List Nat) (hinit : ∀ x, init = some x → req ≤ x.1) :
    ∀ x, gswStep req init b = some x → req ≤ x.1 := by
  intro x hx
  cases init with
  | none =>
      simp only [gswStep] at hx
      by_cases hb : req ≤ b.1
      · rw [if_pos hb] at hx
        injection hx with hx
        subst hx
        exact hb
      · rw [if_neg hb] at hx
        exact absurd hx (by simp)
  | some q =>
      simp only [gswStep] at hx
      by_cases hb : req ≤ b.1
      · rw [if_pos hb] at hx
        by_cases hq : q.1 < b.1
        · rw [if_pos hq] at hx
          injection hx with hx
          subst hx
          exact hb
        · rw [if_neg hq] at hx
          injection hx with hx
          subst hx
          exact hinit q rfl
      · rw [if_neg hb] at hx
        injection hx with hx
        subst hx
        exact hinit q rfl

lemma gswFold_spec (req : Nat) :
    ∀ (bs : WorkersIndex) (init : Option (Nat × List Nat)) (a : Nat)
      (ws : List Nat),
      List.foldl (gswStep req) init bs = some (a, ws) →
      (∀ x, init = some x → req ≤ x.1) →
      ((∀ x, init = some x → x.1 ≤ a) ∧ req ≤ a ∧
        ∀ p ∈ bs, req ≤ p.1 → p.1 ≤ a) := by
  intro bs
  induction bs with
  | nil =>
      intro init a ws h hinit
      simp only [List.foldl_nil] at h
      refine ⟨?_, ?_, by simp⟩
      · intro x hx
        rw [h] at hx
        injection hx with hx
        rw [← hx]
      · exact hinit (a, ws) h
  | cons b bs ih =>
      intro init a ws h hinit
      simp only [List.foldl_cons] at h
      have hinit2 : ∀ x, gswStep req init b = some x → req ≤ x.1 :=
        gswStep_keeps req init b hinit
      obtain ⟨ih1, ih2, ih3⟩ := ih (gswStep req init b) a ws h hinit2
      refine ⟨?_, ih2, ?_⟩
      · intro x hx
        cases hinitv : init with
        | none =>
            rw [hinitv] at hx
            exact absurd hx (by simp)
        | some q =>
            rw [hinitv] at hx
            injection hx with hx
            subst hx
            by_cases hb : req ≤ b.1
            · by_cases hq : q.1 < b.1
              · have hba : b.1 ≤ a :=
                  ih1 b (by simp [gswStep, hinitv, hb, hq])
                exact le_of_lt (lt_of_lt_of_le hq hba)
              · exact ih1 q (by simp [gswStep, hinitv, hb, hq])
            · exact ih1 q (by simp [gswStep, hinitv, hb])
      · intro p hp hreqp
        rcases List.mem_cons.mp hp with rfl | hp
        · cases hinitv : init with
          | none =>
              exact ih1 p (by simp [gswStep, hinitv, hreqp])
          | some q =>
              by_cases hq : q.1 < p.1
              · exact ih1 p (by simp [gswStep, hinitv, hreqp, hq])
              · have hqa : q.1 ≤ a :=
                  ih1 q (by simp [gswStep, hinitv, hreqp, hq])
                exact le_trans (not_lt.mp hq) hqa
        · exact ih3 p hp hreqp

/-- C6 amended — `get_any` requests the SMALLEST filed spare-capacity
value as the worker count (`min` over the index keys), but `get` then
leases through `get_suitable_worker`, whose scan keeps the bucket with the
LARGEST spare capacity among those ≥ the requirement — so the instance
actually leased offers the largest, not the smallest, currently-known
spare capacity. -/
theorem get_any_min_request_best_fit_above :
    (∀ (s : PoolState) (m : Nat),
        listMin? (s.workers.map (fun p => p.1)) = some m →
        get_any s = get s m) ∧
    (∀ (s : PoolState) (req w a : Nat) (s2 : PoolState),
        get_suitable_worker s req = Except.ok (some (w, a), s2) →
        req ≤ a ∧ ∀ p ∈ s.workers, req ≤ p.1 → p.1 ≤ a) := by
  constructor
  · intro s m h
    unfold get_any
    rw [h]
  · intro s req w a s2 h
    unfold get_suitable_worker at h
    cases hscan : gswScan req s.workers with
    | none =>
        simp only [hscan] at h
        simp at h
    | some p =>
        rcases p with ⟨a1, ws1⟩
        simp only [hscan] at h
        cases hlast : ws1.getLast? with
        | none =>
            simp only [hlast] at h
            simp at h
        | some w1 =>
            simp only [hlast] at h
            simp only [Except.ok.injEq, Prod.mk.injEq, Option.some.injEq] at h
            obtain ⟨⟨hw, ha⟩, hs2⟩ := h
            subst ha
            have hs := gswFold_spec req s.workers none a1 ws1 hscan (by simp)
            exact ⟨hs.2.1, hs.2.2⟩

/-- Witness for C6's amended theorem at `c6state`: `get_any` requests the
minimum key 2, and the chosen bucket's availability 7 dominates every
qualifying key. -/
theorem get_any_min_request_best_fit_above_witness :
    get_any c6state = get c6state 2 ∧ 2 ≤ 7 :=
  ⟨get_any_min_request_best_fit_above.1 c6state 2 rfl,
   (get_any_min_request_best_fit_above.2 c6state 2 20 7
      ⟨[(2, [10]), (7, [])], 0⟩ rfl).1⟩

/-- Counterexample to C9 as stated: invoking `PoolOfPoolsMixin.map`
directly with `required_workers = 0` is NOT rejected — the clamp
`worker_count = max(worker_count, 1)` silently turns it into a one-worker
run that executes normally and invokes the callback. -/
theorem map_zero_workers_executes_cex :
    (mapRun (fun n => (Except.ok (n + 1) : Except Unit Nat)) [41] 0).yielded
        = [42] ∧
      (mapRun (fun n => (Except.ok (n + 1) : Except Unit Nat)) [41] 0).error
        = none ∧
      (mapRun (fun n => (Except.ok (n + 1) : Except Unit Nat)) [41] 0).callback
        = some 1 :=
  ⟨rfl, rfl, rfl⟩

/-- C9 amended — A capacity request below 1 is rejected only on the
`ExecutorPool.get` path (`assert required_workers > 0` raises
`AssertionError` for a requested count of 0); `PoolOfPoolsMixin.map`
itself clamps `required_workers = 0` to 1 and executes the run exactly as
a one-worker run. -/
theorem zero_worker_request_semantics :
    (∀ s : PoolState, get s 0 = Except.error Err.assertionError) ∧
    (∀ (α ε β : Type) (f : α → Except ε β) (s : List α),
        mapRun f s 0 = mapRun f s 1) :=
  ⟨fun _ => rfl, fun _ _ _ _ _ => rfl⟩

/-- A Python value that the `parallel` / `process` keyword arguments of
`Stream.map` can carry into `PoolOfPools.get`: an integer, a boolean or
`None`. -/
inductive PyVal where
  | pint (n : Int)
  | pbool (b : Bool)
  | pnone
deriving Repr, DecidableEq

/-- The membership test `value in (1, True)` of `PoolOfPools.get`
(poolofpools.py lines 249 and 256): in Python `True == 1`, so it holds
exactly for the integer 1 and the boolean True. -/
def pyEqOneOrTrue : PyVal → Bool
  | PyVal.pint n => n == 1
  | PyVal.pbool b => b
  | PyVal.pnone => false

/-- The integer worker count a `PyVal` denotes when passed on as
`required_workers` (Python booleans are integers). -/
def pyToInt : PyVal → Int
  | PyVal.pint n => n
  | PyVal.pbool b => if b then 1 else 0
  | PyVal.pnone => 0

/-- The keyword arguments of `Stream.map` that `PoolOfPools.get`
inspects: `some v` means the key is present with value `v` (`v` may be
`pnone`, i.e. Python `None`). -/
structure MapKwargs where
  parallel : Option PyVal
  process : Option PyVal
deriving Repr, DecidableEq

/-- Where `PoolOfPools.get` routes a request and with how many required
workers: `self.parallel(n)`, `self.process(n)`, or the implicit `None`
return when neither keyword fires. -/
inductive Route where
  | parallel (required : Int)
  | process (required : Int)
  | nothing
deriving Repr, DecidableEq

/-- The `if "process" in kwargs:` block of `PoolOfPools.get`
(poolofpools.py lines 254-259). -/
def poolGetProcess (default_count : Int) (kw : MapKwargs) : Route :=
  match kw.process with
  | some v =>
      if pyEqOneOrTrue v then Route.process default_count
      else if v ≠ PyVal.pnone then Route.process (pyToInt v)
      else Route.nothing
  | none => Route.nothing

/-- `PoolOfPools.get` (poolofpools.py lines 239-259), with
`self.default_count` (set to `cpu_count()` in `PoolOfPools.__init__`)
passed as a parameter. -/
def poolOfPoolsGet (default_count : Int) (kw : MapKwargs) : Route :=
  match kw.parallel with
  | some v =>
      if pyEqOneOrTrue v then Route.parallel default_count
      else if v ≠ PyVal.pnone then Route.parallel (pyToInt v)
      else poolGetProcess default_count kw
  | none => poolGetProcess default_count kw

lemma pyToInt_ne_one (u : PyVal) (h1 : pyEqOneOrTrue u = false) :
    pyToInt u ≠ 1 := by
  cases u with
  | pint n =>
      simp only [pyEqOneOrTrue, beq_eq_false_iff_ne, ne_eq] at h1
      simpa [pyToInt] using h1
  | pbool b =>
      cases b with
      | false => simp [pyToInt]
      | true => simp [pyEqOneOrTrue] at h1
  | pnone => simp [pyToInt]

lemma poolGetProcess_ne_one (dc : Int) (kw : MapKwargs) (hdc : dc ≠ 1) :
    poolGetProcess dc kw ≠ Route.parallel 1 ∧
      poolGetProcess dc kw ≠ Route.process 1 := by
  unfold poolGetProcess
  cases hw : kw.process with
  | none => simp
  | some u =>
      dsimp only
      by_cases h1 : pyEqOneOrTrue u = true
      · rw [if_pos h1]
        exact ⟨by simp, by simp [hdc]⟩
      · have h1f : pyEqOneOrTrue u = false := by simpa using h1
        rw [if_neg h1]
        by_cases h2 : u ≠ PyVal.pnone
        · rw [if_pos h2]
          exact ⟨by simp, by simp [pyToInt_ne_one u h1f]⟩
        · rw [if_neg h2]
          simp

/-- C10 — Any `PoolOfPools.get` call whose kwargs set `parallel` (or,
with `parallel` absent or `None`, `process`) to 1 or to `True` is routed
with `default_count = cpu_count()` required workers, not with 1; and no
kwargs at all can make the routing request exactly 1 worker unless
`default_count` itself is 1 — an explicit request for exactly one worker
cannot be expressed through this interface. -/
theorem pool_get_one_true_uses_default_count (default_count : Int)
    (kw : MapKwargs) (v : PyVal) :
    ((kw.parallel = some v ∧ pyEqOneOrTrue v = true) →
        poolOfPoolsGet default_count kw = Route.parallel default_count) ∧
    (((kw.parallel = none ∨ kw.parallel = some PyVal.pnone) ∧
        kw.process = some v ∧ pyEqOneOrTrue v = true) →
        poolOfPoolsGet default_count kw = Route.process default_count) ∧
    (default_count ≠ 1 →
        poolOfPoolsGet default_count kw ≠ Route.parallel 1 ∧
        poolOfPoolsGet default_count kw ≠ Route.process 1) := by
  refine ⟨?_, ?_, ?_⟩
  · intro ⟨hp, hv⟩
    unfold poolOfPoolsGet
    rw [hp]
    simp [hv]
  · intro ⟨hpar, hproc, hv⟩
    have hbody : poolGetProcess default_count kw
        = Route.process default_count := by
      unfold poolGetProcess
      rw [hproc]
      simp [hv]
    unfold poolOfPoolsGet
    rcases hpar with hpar | hpar
    · rw [hpar]
      exact hbody
    · rw [hpar]
      simpa [pyEqOneOrTrue] using hbody
  · intro hdc
    unfold poolOfPoolsGet
    cases hp : kw.parallel with
    | none => exact poolGetProcess_ne_one default_count kw hdc
    | some u =>
        dsimp only
        by_cases h1 : pyEqOneOrTrue u = true
        · rw [if_pos h1]
          exact ⟨by simp [hdc], by simp⟩
        · have h1f : pyEqOneOrTrue u = false := by simpa using h1
          rw [if_neg h1]
          by_cases h2 : u ≠ PyVal.pnone
          · rw [if_pos h2]
            exact ⟨by simp [pyToInt_ne_one u h1f], by simp⟩
          · rw [if_neg h2]
            exact poolGetProcess_ne_one default_count kw hdc

/-- Witness for C10: with `parallel = 1` and `cpu_count() = 4`, the
request is routed to the parallel pool with 4 required workers. -/
theorem pool_get_one_true_uses_default_count_witness :
    poolOfPoolsGet 4 ⟨some (PyVal.pint 1), none⟩ = Route.parallel 4 :=
  (pool_get_one_true_uses_default_count 4
      ⟨some (PyVal.pint 1), none⟩ (PyVal.pint 1)).1 ⟨rfl, rfl⟩

end Streams
